import Mathlib

/-!
Verification development for the stream-consumption core of this repository:
the consumer-group reader (src/src/classes/consumer.ts) and the queue-events
listener (QueueEvents in the unnamed source part).

The embedding is shallow: record ids are pairs (millisecond timestamp,
sequence number) with the lexicographic order the store uses; the store state
visible to one consumer group is a sorted list of entries, a pending-entry
list (PEL) and a last-delivered cursor.  The JavaScript callback and
JSON.parse are modelled as explicit function parameters (a callback returns
a success flag; a parse returns none exactly when JSON.parse would throw).
Effects of one loop iteration (callback invocations, acknowledgments,
error-channel emissions) are collected in an explicit trace.
-/

namespace BullS

/-- Record id: millisecond timestamp and sequence number.  The source carries
ids as strings of the shape "ts-seq" and recovers the timestamp by splitting
on the dash; well-formed ids are modelled directly as the pair. -/
abbrev EntryId := Nat × Nat

/-- Strict lexicographic order on record ids, the order the store assigns
them in. -/
def idLtB (a b : EntryId) : Bool :=
  decide (a.1 < b.1) || (decide (a.1 = b.1) && decide (a.2 < b.2))

/-- A stream record: id timestamp, id sequence number, and the flat
alternating key/value field list as returned by the store. -/
structure Entry where
  ts : Nat
  seq : Nat
  fields : List String
deriving DecidableEq, Repr

def Entry.eid (e : Entry) : EntryId := (e.ts, e.seq)

/-- Consumer options (consumer-options interface): every field optional,
defaults applied at use sites exactly as the source does. -/
structure ConsumerOpts where
  batchSize : Option Nat := none
  blockTimeMs : Option Nat := none
  maxRetentionMs : Option Nat := none
  trimIntervalMs : Option Nat := none
deriving DecidableEq, Repr

/-- JavaScript "value || default" on an optional number: undefined and 0 are
falsy, any other number is itself. -/
def jsOrNat : Option Nat → Nat → Nat
  | none, d => d
  | some 0, d => d
  | some (n + 1), _ => n + 1

/-- Store-plus-consumer state visible to Consumer.consume for one group:
the stream (sorted by id), the pending entry list of delivered-but-unacked
ids, the group's last-delivered cursor, and the consumer object's lastTrim
timestamp. -/
structure GroupState where
  stream : List Entry
  pel : List EntryId
  lastDelivered : EntryId
  lastTrim : Nat
deriving DecidableEq, Repr

/-- Boolean membership of an id in an id list. -/
def memB (i : EntryId) : List EntryId → Bool
  | [] => false
  | j :: rest => if i = j then true else memB i rest

/-- XACK: removes the id from the pending entry list; acknowledging an id
that is not pending leaves the state unchanged. -/
def xack (st : GroupState) (i : EntryId) : GroupState :=
  { st with pel := st.pel.erase i }

/-- The entries of the stream currently pending (delivered, unacked):
what an XREADGROUP with start id 0 reads from. -/
def pelEntries (st : GroupState) : List Entry :=
  st.stream.filter (fun e => memB e.eid st.pel)

/-- The stream name; the source uses this.name, whose concrete value is
irrelevant to the claims. -/
def streamKey : String := "stream"

/-- XREADGROUP with start id 0: returns this consumer's pending entries
(bounded by COUNT) under the single requested stream; the reply is a list of
(stream name, entries) pairs with exactly one element. -/
def xreadgroupPending (st : GroupState) (count : Nat) :
    Option (List (String × List Entry)) :=
  some [(streamKey, (pelEntries st).take count)]

/-- New (never-delivered) entries: ids past the group cursor, bounded by
COUNT. -/
def newEntries (st : GroupState) (count : Nat) : List Entry :=
  (st.stream.filter (fun e => idLtB st.lastDelivered e.eid)).take count

/-- Delivery bookkeeping of an XREADGROUP with the new-messages selector:
the delivered ids enter the PEL and the group cursor advances to the last
delivered id. -/
def deliverNew (st : GroupState) (count : Nat) : GroupState :=
  { st with
      pel := st.pel ++ (newEntries st count).map Entry.eid,
      lastDelivered := ((newEntries st count).map Entry.eid).getLastD st.lastDelivered }

/-- XREADGROUP with the new-messages selector: null on timeout when nothing
new, otherwise the singleton stream reply plus the delivery bookkeeping. -/
def xreadgroupNew (st : GroupState) (count : Nat) :
    Option (List (String × List Entry)) × GroupState :=
  if newEntries st count = [] then (none, st)
  else (some [(streamKey, newEntries st count)], deliverNew st count)

/-- JavaScript .length of the two-element reply tuple [streamName, entries]. -/
def jsPairLen (_ : String × List Entry) : Nat := 2

/-- The source's guard on the pending read result:
pendingResult && pendingResult.length > 1 && pendingResult[1].length > 0
(the last conjunct reads the length of the reply tuple at index 1). -/
def pendingGuardHolds : Option (List (String × List Entry)) → Bool
  | none => false
  | some p =>
    decide (1 < p.length) &&
      (match p.get? 1 with
       | some pair => decide (0 < jsPairLen pair)
       | none => false)

/-- The source's guard on the new read result:
newResult && newResult.length > 0 && newResult[0].length > 0. -/
def newGuardHolds : Option (List (String × List Entry)) → Bool
  | none => false
  | some p =>
    decide (0 < p.length) &&
      (match p.head? with
       | some pair => decide (0 < jsPairLen pair)
       | none => false)

/-- The truncating cutoff computed by trimStream:
now - this.consumerOpts.maxRetentionMs || 1000 * 60 * 60 * 24.
Precedence binds the subtraction first; when maxRetentionMs is undefined the
subtraction is NaN (falsy) and when it is exactly now the subtraction is 0
(falsy), so the default 86400000 is used as an absolute cutoff in both
cases. -/
def cutoffTime (maxRetentionMs : Option Nat) (now : Nat) : Int :=
  match maxRetentionMs with
  | none => 86400000
  | some m => if (now : Int) - m = 0 then 86400000 else (now : Int) - m

/-- Consumer.trimStream: rate-limited by trimIntervalMs (default 60000);
looks at the single oldest record and, when its timestamp precedes the
cutoff, trims the stream with MINID cutoff-0 (keeping exactly the entries
with timestamp at or past the cutoff). -/
def trimStream (opts : ConsumerOpts) (now : Nat) (st : GroupState) :
    GroupState :=
  if st.lastTrim + jsOrNat opts.trimIntervalMs 60000 > now then st
  else
    match st.stream.head? with
    | none => { st with lastTrim := now }
    | some oldest =>
      if (oldest.ts : Int) < cutoffTime opts.maxRetentionMs now then
        { st with
            lastTrim := now,
            stream := st.stream.filter
              (fun e => !decide ((e.ts : Int) < cutoffTime opts.maxRetentionMs now)) }
      else { st with lastTrim := now }

/-- One observable effect of the consume loop: a callback invocation (with
its success flag), an acknowledgment, or an emission on the error channel. -/
inductive CEffect where
  | cbCall (i : EntryId) (ok : Bool)
  | ack (i : EntryId)
  | errorEmit
deriving DecidableEq, Repr

/-- Ids acknowledged in a trace. -/
def ackIds (tr : List CEffect) : List EntryId :=
  tr.filterMap (fun eff =>
    match eff with
    | CEffect.ack i => some i
    | _ => none)

/-- Ids on which the callback was invoked in a trace. -/
def cbIds (tr : List CEffect) : List EntryId :=
  tr.filterMap (fun eff =>
    match eff with
    | CEffect.cbCall i _ => some i
    | _ => none)

/-- Number of occurrences of an id in an id list. -/
def countId (i : EntryId) : List EntryId → Nat
  | [] => 0
  | j :: rest => (if j = i then 1 else 0) + countId i rest

/-- JavaScript object assignment jobData[k] = v: replaces the value in place
when the key exists, appends otherwise. -/
def jsObjSet {α : Type} (m : List (String × α)) (k : String) (v : α) :
    List (String × α) :=
  match m with
  | [] => [(k, v)]
  | p :: rest => if p.1 = k then (k, v) :: rest else p :: jsObjSet rest k v

/-- Property lookup on a JavaScript object modelled as a key-unique
association list. -/
def lookupObj {α : Type} (k : String) : List (String × α) → Option α
  | [] => none
  | p :: rest => if p.1 = k then some p.2 else lookupObj k rest

/-- The jobData object built by processMessages: the flat field list is
consumed two at a time (key at i, value at i+1); an odd tail assigns the
JavaScript undefined, modelled as none. -/
def buildJobData (acc : List (String × Option String)) :
    List String → List (String × Option String)
  | [] => acc
  | [k] => jsObjSet acc k none
  | k :: v :: rest => buildJobData (jsObjSet acc k (some v)) rest

/-- The value of jobData at key "data": none when the key is missing or its
value is undefined (JSON.parse then throws). -/
def dataField (e : Entry) : Option String :=
  (lookupObj "data" (buildJobData [] e.fields)).join

/-- The decoded payload of a record: JSON.parse of the "data" field, where a
parse result of none models a thrown SyntaxError. -/
def parsedData (parse : String → Option String) (e : Entry) : Option String :=
  (dataField e).bind parse

/-- The per-entry loop of Consumer.processMessages: decode the data field
(outside the per-record try, so a parse failure aborts the whole batch),
invoke the callback inside the try, acknowledge on success, emit on the
error channel on callback failure.  The Bool result records whether a parse
error escaped. -/
def processEntries (parse : String → Option String) (cb : String → Bool)
    (st : GroupState) : List Entry → GroupState × List CEffect × Bool
  | [] => (st, [], false)
  | e :: rest =>
    match parsedData parse e with
    | none => (st, [], true)
    | some d =>
      if cb d then
        let r := processEntries parse cb (xack st e.eid) rest
        (r.1, CEffect.cbCall e.eid true :: CEffect.ack e.eid :: r.2.1, r.2.2)
      else
        let r := processEntries parse cb st rest
        (r.1, CEffect.cbCall e.eid false :: CEffect.errorEmit :: r.2.1, r.2.2)

/-- Consumer.processMessages: destructures messages[0] and iterates its
entries; destructuring an empty reply would itself throw. -/
def processMessages (parse : String → Option String) (cb : String → Bool)
    (st : GroupState) (messages : List (String × List Entry)) :
    GroupState × List CEffect × Bool :=
  match messages with
  | [] => (st, [], true)
  | (_, entries) :: _ => processEntries parse cb st entries

/-- The for-loop of the pending branch in Consumer.consume: for each id in
the batch, a fresh record (age at most the retention) triggers
processMessages over the whole original pending reply, while a stale one is
acknowledged directly; a throw escaping processMessages aborts the loop. -/
def pendingLoop (parse : String → Option String) (cb : String → Bool)
    (now maxRet : Nat) (pr : List (String × List Entry)) (st : GroupState) :
    List Entry → GroupState × List CEffect × Bool
  | [] => (st, [], false)
  | e :: rest =>
    if now - e.ts ≤ maxRet then
      let r1 := processMessages parse cb st pr
      if r1.2.2 then (r1.1, r1.2.1, true)
      else
        let r2 := pendingLoop parse cb now maxRet pr r1.1 rest
        (r2.1, r1.2.1 ++ r2.2.1, r2.2.2)
    else
      let r2 := pendingLoop parse cb now maxRet pr (xack st e.eid) rest
      (r2.1, CEffect.ack e.eid :: r2.2.1, r2.2.2)

/-- The pending branch of Consumer.consume (guarded by pendingGuardHolds):
destructures pendingResult[0] and runs the pending for-loop with the
retention defaulted through ||; the iteration then continues the while loop,
skipping trim and the new-record phase.  A thrown error is caught by the
loop-level catch and reported on the error channel. -/
def pendingBranch (parse : String → Option String) (cb : String → Bool)
    (opts : ConsumerOpts) (now : Nat) (st : GroupState)
    (pr : List (String × List Entry)) : GroupState × List CEffect :=
  match pr.head? with
  | none => (st, [CEffect.errorEmit])
  | some pair =>
    let r := pendingLoop parse cb now (jsOrNat opts.maxRetentionMs 86400000) pr st pair.2
    (r.1, if r.2.2 then r.2.1 ++ [CEffect.errorEmit] else r.2.1)

/-- The new-record phase of Consumer.consume: blocking-read unseen records
and process them; a throw escaping processMessages is caught by the
loop-level catch and reported on the error channel. -/
def newPhase (parse : String → Option String) (cb : String → Bool)
    (opts : ConsumerOpts) (st1 : GroupState) : GroupState × List CEffect :=
  let res := xreadgroupNew st1 (jsOrNat opts.batchSize 1)
  if newGuardHolds res.1 then
    match res.1 with
    | some nr =>
      let r := processMessages parse cb res.2 nr
      (r.1, if r.2.2 then r.2.1 ++ [CEffect.errorEmit] else r.2.1)
    | none => (res.2, [CEffect.errorEmit])
  else (res.2, [])

/-- One iteration of the while loop of Consumer.consume: read the pending
entries, take the pending branch when its guard holds (skipping everything
else this iteration), otherwise run trim maintenance followed by the
new-record phase. -/
def consumeIteration (parse : String → Option String) (cb : String → Bool)
    (opts : ConsumerOpts) (now : Nat) (st : GroupState) :
    GroupState × List CEffect :=
  let pendingResult := xreadgroupPending st (jsOrNat opts.batchSize 1)
  if pendingGuardHolds pendingResult then
    match pendingResult with
    | some pr => pendingBranch parse cb opts now st pr
    | none => (st, [CEffect.errorEmit])
  else
    newPhase parse cb opts (trimStream opts now st)

/-- A field value inside the decoded event object: a raw string from the
stream, the structured result of JSON.parse on a string (kept as the source
text of the parse result), or the JavaScript undefined produced by an
odd-length flat list. -/
inductive FVal where
  | str (s : String)
  | parsed (p : String)
  | undef
deriving DecidableEq, Repr

/-- Modelled from the spec: array2obj lives in src/utils, which is not under
src/; per the spec it flattens a record's ordered flat key/value field list
into an object, later keys overwriting earlier ones. -/
def array2objAux (acc : List (String × FVal)) :
    List String → List (String × FVal)
  | [] => acc
  | [k] => jsObjSet acc k FVal.undef
  | k :: v :: rest => array2objAux (jsObjSet acc k (FVal.str v)) rest

/-- Modelled from the spec: array2obj applied to a record's flat fields. -/
def array2obj (flat : List String) : List (String × FVal) :=
  array2objAux [] flat

/-- The JSON-decode switch of QueueEvents.consumeEvents: a progress record
has its data field decoded in place, a completed record its returnvalue
field; every other kind passes through untouched.  none models a thrown
decode error (including JSON.parse of a missing or undefined field), which
escapes the consuming loop. -/
def decodeEvent (parse : String → Option String)
    (args : List (String × FVal)) : Option (List (String × FVal)) :=
  match lookupObj "event" args with
  | some (FVal.str "progress") =>
    match lookupObj "data" args with
    | some (FVal.str s) => (parse s).map (fun p => jsObjSet args "data" (FVal.parsed p))
    | _ => none
  | some (FVal.str "completed") =>
    match lookupObj "returnvalue" args with
    | some (FVal.str s) => (parse s).map (fun p => jsObjSet args "returnvalue" (FVal.parsed p))
    | _ => none
  | _ => some args

/-- Object rest-spread without one key: const \x7b event, ...restArgs \x7d. -/
def eraseKey {α : Type} (k : String) (m : List (String × α)) :
    List (String × α) :=
  m.filter (fun p => !decide (p.1 = k))

/-- The truthiness test on restArgs.jobId: a present, non-empty string
value.  The decode switch rewrites only the data and returnvalue keys, so
the jobId value is never a parsed one; a missing key or undefined value is
falsy. -/
def truthyJobId (args : List (String × FVal)) : Option String :=
  match lookupObj "jobId" args with
  | some (FVal.str s) => if s = "" then none else some s
  | _ => none

/-- One local emission of the listener: the payload-free drained emission,
an emission under the bare event kind, or the same payload re-emitted under
the composed kind:jobId topic. -/
inductive Emission where
  | idOnly (id : EntryId)
  | keyed (kind : Option FVal) (args : List (String × FVal)) (id : EntryId)
  | composedKeyed (kind : Option FVal) (jobId : String)
      (args : List (String × FVal)) (id : EntryId)
deriving DecidableEq, Repr

/-- The dispatch step of QueueEvents.consumeEvents on one decoded record:
drained is emitted with only the id; any other kind is emitted as
(restArgs, id) under the bare kind and, when restArgs.jobId is truthy, the
identical (restArgs, id) again under the composed kind:jobId topic. -/
def dispatchArgs (args : List (String × FVal)) (id : EntryId) :
    List Emission :=
  let kind := lookupObj "event" args
  let rest := eraseKey "event" args
  if kind = some (FVal.str "drained") then [Emission.idOnly id]
  else
    Emission.keyed kind rest id ::
      (match truthyJobId rest with
       | some j => [Emission.composedKeyed kind j rest id]
       | none => [])

/-- A record of the global event stream. -/
structure QEvent where
  eid : EntryId
  fields : List String
deriving DecidableEq, Repr

/-- The per-batch for-loop of QueueEvents.consumeEvents: for each record in
order, the cursor is first assigned the record's id, the fields are decoded,
and the record is dispatched tagged with that cursor value; a decode throw
escapes the loop (with the cursor already advanced).  Returns the final
cursor, the per-record (cursor-at-dispatch, emissions) list, and whether a
throw escaped. -/
def consumeBatch (parse : String → Option String) (c : EntryId) :
    List QEvent → EntryId × List (EntryId × List Emission) × Bool
  | [] => (c, [], false)
  | e :: rest =>
    match decodeEvent parse (array2obj e.fields) with
    | none => (e.eid, [], true)
    | some args =>
      let r := consumeBatch parse e.eid rest
      (r.1, (e.eid, dispatchArgs args e.eid) :: r.2.1, r.2.2)

/-- XREAD STREAMS key id: the records of the log with id strictly past the
cursor, in log order. -/
def xreadAfter (log : List QEvent) (c : EntryId) : List QEvent :=
  log.filter (fun e => idLtB c e.eid)

/-- One pass of the listener loop over a log, started from cursor x: read
everything past x and run the consuming for-loop. -/
def listenerPass (parse : String → Option String) (log : List QEvent)
    (x : EntryId) : EntryId × List (EntryId × List Emission) × Bool :=
  consumeBatch parse x (xreadAfter log x)

/-- Control state of a QueueEvents instance. -/
structure QEvCtl where
  running : Bool
  closing : Bool
  cursor : EntryId
deriving DecidableEq, Repr

/-- QueueEvents.run: when already running, throws the already-running error
without touching any state; otherwise sets running and enters the consuming
loop (bodyFails models a failure thrown inside the try, after which running
is reset and the error rethrown). -/
def qeRun (bodyFails : Bool) (st : QEvCtl) : QEvCtl × Option String :=
  if st.running then (st, some "Queue Events is already running.")
  else if bodyFails then ({ st with running := false }, some "startup failure")
  else ({ st with running := true }, none)

/-- The identity JSON decoder used on concrete scenarios: every payload
parses to itself. -/
def parseId : String → Option String := fun s => some s

/-- A decoder that rejects exactly the payload "BAD". -/
def parseNoBad : String → Option String :=
  fun s => if s = "BAD" then none else some s

/-- A callback that succeeds on every payload. -/
def cbOk : String → Bool := fun _ => true

/-- A callback that fails on every payload. -/
def cbFail : String → Bool := fun _ => false

/-- Concrete record with id 100-0 (delivered and pending in the scenarios
below). -/
def entryA : Entry := ⟨100, 0, ["data", "a"]⟩

/-- Concrete record with id 200-0 (not yet delivered in the scenarios
below). -/
def entryB : Entry := ⟨200, 0, ["data", "b"]⟩

/-- A state holding both a pending record (entryA, in the PEL) and a new
record (entryB, past the group cursor); lastTrim is recent so trim
maintenance is quiescent. -/
def stateBoth : GroupState := ⟨[entryA, entryB], [(100, 0)], (100, 0), 1000000⟩

/-- Options with a one-second retention. -/
def optsRet : ConsumerOpts := { maxRetentionMs := some 1000 }

/-- A state whose only record is pending and far older than optsRet's
retention at time 1000000000. -/
def stateStale : GroupState := ⟨[entryA], [(100, 0)], (100, 0), 1000000000⟩

/-- Options with maxRetentionMs set to zero. -/
def optsZero : ConsumerOpts := { maxRetentionMs := some 0 }

/-- Concrete fresh record with id 500-0. -/
def entryF : Entry := ⟨500, 0, ["data", "a"]⟩

/-- A state whose only record is pending and fresh at time 1000. -/
def stateFresh : GroupState := ⟨[entryF], [(500, 0)], (500, 0), 1000⟩

/-- Concrete record timestamped between one and two days past the epoch. -/
def entryOld : Entry := ⟨50000000, 0, []⟩

/-- A trim-eligible state holding only entryOld. -/
def stateTrim : GroupState := ⟨[entryOld], [], (0, 0), 0⟩

/-- Concrete completed event record carrying a job id. -/
def evCompleted : QEvent :=
  ⟨(5, 0), ["event", "completed", "returnvalue", "1", "jobId", "j1"]⟩

/-- Concrete drained event record. -/
def evDrained : QEvent := ⟨(6, 0), ["event", "drained"]⟩

/-- The decoded object of evCompleted under parseId. -/
def argsCompleted : List (String × FVal) :=
  [("event", FVal.str "completed"), ("returnvalue", FVal.parsed "1"),
   ("jobId", FVal.str "j1")]

/-- A concrete two-record event log. -/
def logTwo : List QEvent := [evCompleted, evDrained]

/-- A running listener control state. -/
def ctlRunning : QEvCtl := ⟨true, false, (7, 0)⟩

/-- Options with every field left at its default. -/
def optsDefault : ConsumerOpts := {}

/-- Options with a batch size of three. -/
def optsBatch3 : ConsumerOpts := { batchSize := some 3 }

/-- Concrete record whose data payload fails to JSON-parse under
parseNoBad. -/
def entryBad : Entry := ⟨150, 0, ["data", "BAD"]⟩

/-- A state holding three undelivered records, the middle one carrying the
unparseable payload; lastTrim is recent so trim maintenance is quiescent. -/
def stateNewBatch : GroupState :=
  ⟨[entryA, entryBad, entryB], [], (0, 0), 1000000⟩

theorem idLtB_iff (a b : EntryId) :
    idLtB a b = true ↔ (a.1 < b.1 ∨ (a.1 = b.1 ∧ a.2 < b.2)) := by
  simp [idLtB]

theorem idLtB_irrefl (a : EntryId) : idLtB a a = false := by
  simp [idLtB]

theorem idLtB_trans {a b c : EntryId} (h1 : idLtB a b = true)
    (h2 : idLtB b c = true) : idLtB a c = true := by
  simp [idLtB] at *
  omega

theorem idLtB_asymm {a b : EntryId} (h : idLtB a b = true) :
    idLtB b a = false := by
  simp [idLtB] at *
  omega

theorem memB_iff (i : EntryId) (l : List EntryId) :
    memB i l = true ↔ i ∈ l := by
  induction l with
  | nil => simp [memB]
  | cons j rest ih =>
    by_cases h : i = j <;> simp [memB, h, ih]

/-- The pending-read reply always holds exactly the one requested stream, so
the source's guard pendingResult.length > 1 never holds and the pending
branch is unreachable: every iteration reduces to trim plus the new-record
phase. -/
theorem consumeIteration_reduces (parse : String → Option String)
    (cb : String → Bool) (opts : ConsumerOpts) (now : Nat) (st : GroupState) :
    consumeIteration parse cb opts now st =
      newPhase parse cb opts (trimStream opts now st) := by
  simp [consumeIteration, xreadgroupPending, pendingGuardHolds]

theorem ackIds_cons_cb (i : EntryId) (ok : Bool) (tr : List CEffect) :
    ackIds (CEffect.cbCall i ok :: tr) = ackIds tr := rfl

theorem ackIds_cons_ack (i : EntryId) (tr : List CEffect) :
    ackIds (CEffect.ack i :: tr) = i :: ackIds tr := rfl

theorem ackIds_cons_err (tr : List CEffect) :
    ackIds (CEffect.errorEmit :: tr) = ackIds tr := rfl

theorem ackIds_append (tr1 tr2 : List CEffect) :
    ackIds (tr1 ++ tr2) = ackIds tr1 ++ ackIds tr2 := by
  simp [ackIds]

theorem ackIds_nil : ackIds [] = [] := rfl

theorem cbIds_cons_cb (i : EntryId) (ok : Bool) (tr : List CEffect) :
    cbIds (CEffect.cbCall i ok :: tr) = i :: cbIds tr := rfl

theorem cbIds_cons_ack (i : EntryId) (tr : List CEffect) :
    cbIds (CEffect.ack i :: tr) = cbIds tr := rfl

theorem cbIds_cons_err (tr : List CEffect) :
    cbIds (CEffect.errorEmit :: tr) = cbIds tr := rfl

theorem cbIds_append (tr1 tr2 : List CEffect) :
    cbIds (tr1 ++ tr2) = cbIds tr1 ++ cbIds tr2 := by
  simp [cbIds]

theorem cbIds_nil : cbIds [] = [] := rfl

theorem processEntries_fixed (parse : String → Option String)
    (cb : String → Bool) :
    ∀ (es : List Entry) (st : GroupState),
      (processEntries parse cb st es).1.stream = st.stream ∧
      (processEntries parse cb st es).1.lastDelivered = st.lastDelivered ∧
      (processEntries parse cb st es).1.lastTrim = st.lastTrim := by
  intro es
  induction es with
  | nil => intro st; simp [processEntries]
  | cons e rest ih =>
    intro st
    cases hp : parsedData parse e with
    | none => simp [processEntries, hp]
    | some d =>
      by_cases hcb : cb d
      · simpa [processEntries, hp, hcb, xack] using ih (xack st e.eid)
      · simpa [processEntries, hp, hcb] using ih st

theorem ackIds_processEntries_sublist (parse : String → Option String)
    (cb : String → Bool) :
    ∀ (es : List Entry) (st : GroupState),
      List.Sublist (ackIds (processEntries parse cb st es).2.1)
        (es.map Entry.eid) := by
  intro es
  induction es with
  | nil => intro st; simp [processEntries, ackIds]
  | cons e rest ih =>
    intro st
    cases hp : parsedData parse e with
    | none => simp [processEntries, hp, ackIds]
    | some d =>
      by_cases hcb : cb d
      · simpa [processEntries, hp, hcb, ackIds_cons_cb, ackIds_cons_ack] using
          List.Sublist.cons₂ e.eid (ih (xack st e.eid))
      · simpa [processEntries, hp, hcb, ackIds_cons_cb, ackIds_cons_err] using
          List.Sublist.cons e.eid (ih st)

theorem cbIds_processEntries_sublist (parse : String → Option String)
    (cb : String → Bool) :
    ∀ (es : List Entry) (st : GroupState),
      List.Sublist (cbIds (processEntries parse cb st es).2.1)
        (es.map Entry.eid) := by
  intro es
  induction es with
  | nil => intro st; simp [processEntries, cbIds]
  | cons e rest ih =>
    intro st
    cases hp : parsedData parse e with
    | none => simp [processEntries, hp, cbIds]
    | some d =>
      by_cases hcb : cb d
      · simpa [processEntries, hp, hcb, cbIds_cons_cb, cbIds_cons_ack] using
          List.Sublist.cons₂ e.eid (ih (xack st e.eid))
      · simpa [processEntries, hp, hcb, cbIds_cons_cb, cbIds_cons_err] using
          List.Sublist.cons₂ e.eid (ih st)

theorem ackIds_processEntries_mem (parse : String → Option String)
    (cb : String → Bool) :
    ∀ (es : List Entry) (st : GroupState) (i : EntryId),
      i ∈ ackIds (processEntries parse cb st es).2.1 →
      ∃ e, e ∈ es ∧ e.eid = i ∧ ∃ d, parsedData parse e = some d ∧ cb d = true := by
  intro es
  induction es with
  | nil => intro st i h; simp [processEntries, ackIds] at h
  | cons e rest ih =>
    intro st i h
    cases hp : parsedData parse e with
    | none => simp [processEntries, hp, ackIds] at h
    | some d =>
      by_cases hcb : cb d
      · simp only [processEntries, hp, hcb, if_true, ackIds_cons_cb,
          ackIds_cons_ack] at h
        rcases List.mem_cons.mp h with rfl | h2
        · exact ⟨e, by simp, rfl, d, hp, hcb⟩
        · obtain ⟨e2, he2, hid, d2, hd2, hcb2⟩ := ih (xack st e.eid) i h2
          exact ⟨e2, by simp [he2], hid, d2, hd2, hcb2⟩
      · simp only [processEntries, hp, hcb, if_false, ackIds_cons_cb,
          ackIds_cons_err] at h
        obtain ⟨e2, he2, hid, d2, hd2, hcb2⟩ := ih st i h
        exact ⟨e2, by simp [he2], hid, d2, hd2, hcb2⟩

theorem pel_drop_acked (parse : String → Option String) (cb : String → Bool) :
    ∀ (es : List Entry) (st : GroupState) (i : EntryId),
      i ∈ st.pel → i ∉ (processEntries parse cb st es).1.pel →
      i ∈ ackIds (processEntries parse cb st es).2.1 := by
  intro es
  induction es with
  | nil =>
    intro st i hin hout
    simp [processEntries] at hout
    exact absurd hin hout
  | cons e rest ih =>
    intro st i hin hout
    cases hp : parsedData parse e with
    | none =>
      simp [processEntries, hp] at hout
      exact absurd hin hout
    | some d =>
      by_cases hcb : cb d
      · simp only [processEntries, hp, hcb, if_true, ackIds_cons_cb,
          ackIds_cons_ack] at hout ⊢
        by_cases hie : i = e.eid
        · simp [hie]
        · have hin2 : i ∈ (xack st e.eid).pel := by
            simpa [xack] using (List.mem_erase_of_ne hie).mpr hin
          exact List.mem_cons_of_mem _ (ih (xack st e.eid) i hin2 hout)
      · simp only [processEntries, hp, hcb, if_false, ackIds_cons_cb,
          ackIds_cons_err] at hout ⊢
        exact ih st i hin hout

theorem processEntries_break (parse : String → Option String)
    (cb : String → Bool) (bad : Entry) (post : List Entry)
    (hbad : parsedData parse bad = none) :
    ∀ (pre : List Entry) (st : GroupState),
      (∀ e ∈ pre, (parsedData parse e).isSome) →
      processEntries parse cb st (pre ++ bad :: post) =
        ((processEntries parse cb st pre).1,
         (processEntries parse cb st pre).2.1, true) := by
  intro pre
  induction pre with
  | nil => intro st _; simp [processEntries, hbad]
  | cons e pre2 ih =>
    intro st hpre
    obtain ⟨d, hd⟩ := Option.isSome_iff_exists.mp (hpre e (by simp))
    by_cases hcb : cb d
    · simp [processEntries, hd, hcb,
        ih (xack st e.eid) (fun x hx => hpre x (by simp [hx]))]
    · simp [processEntries, hd, hcb, ih st (fun x hx => hpre x (by simp [hx]))]

theorem cbIds_processEntries_clean (parse : String → Option String)
    (cb : String → Bool) :
    ∀ (es : List Entry) (st : GroupState),
      (∀ e ∈ es, (parsedData parse e).isSome) →
      cbIds (processEntries parse cb st es).2.1 = es.map Entry.eid := by
  intro es
  induction es with
  | nil => intro st _; simp [processEntries, cbIds]
  | cons e rest ih =>
    intro st hok
    obtain ⟨d, hd⟩ := Option.isSome_iff_exists.mp (hok e (by simp))
    by_cases hcb : cb d
    · simp [processEntries, hd, hcb, cbIds_cons_cb, cbIds_cons_ack,
        ih (xack st e.eid) (fun x hx => hok x (by simp [hx]))]
    · simp [processEntries, hd, hcb, cbIds_cons_cb, cbIds_cons_err,
        ih st (fun x hx => hok x (by simp [hx]))]

theorem trimStream_pel (opts : ConsumerOpts) (now : Nat) (st : GroupState) :
    (trimStream opts now st).pel = st.pel ∧
    (trimStream opts now st).lastDelivered = st.lastDelivered := by
  unfold trimStream
  split
  · exact ⟨rfl, rfl⟩
  · split
    · exact ⟨rfl, rfl⟩
    · split
      · exact ⟨rfl, rfl⟩
      · exact ⟨rfl, rfl⟩

theorem trimStream_stream_sublist (opts : ConsumerOpts) (now : Nat)
    (st : GroupState) :
    List.Sublist (trimStream opts now st).stream st.stream := by
  unfold trimStream
  split
  · exact List.Sublist.refl _
  · split
    · exact List.Sublist.refl _
    · split
      · exact List.filter_sublist _
      · exact List.Sublist.refl _

theorem newPhase_empty (parse : String → Option String) (cb : String → Bool)
    (opts : ConsumerOpts) (st1 : GroupState)
    (h : newEntries st1 (jsOrNat opts.batchSize 1) = []) :
    newPhase parse cb opts st1 = (st1, []) := by
  simp [newPhase, xreadgroupNew, h, newGuardHolds]

theorem newPhase_nonempty (parse : String → Option String) (cb : String → Bool)
    (opts : ConsumerOpts) (st1 : GroupState)
    (h : newEntries st1 (jsOrNat opts.batchSize 1) ≠ []) :
    newPhase parse cb opts st1 =
      ((processEntries parse cb (deliverNew st1 (jsOrNat opts.batchSize 1))
          (newEntries st1 (jsOrNat opts.batchSize 1))).1,
       if (processEntries parse cb (deliverNew st1 (jsOrNat opts.batchSize 1))
            (newEntries st1 (jsOrNat opts.batchSize 1))).2.2 then
         (processEntries parse cb (deliverNew st1 (jsOrNat opts.batchSize 1))
            (newEntries st1 (jsOrNat opts.batchSize 1))).2.1 ++ [CEffect.errorEmit]
       else
         (processEntries parse cb (deliverNew st1 (jsOrNat opts.batchSize 1))
            (newEntries st1 (jsOrNat opts.batchSize 1))).2.1) := by
  simp [newPhase, xreadgroupNew, h, newGuardHolds, jsPairLen, processMessages]

theorem consumeBatch_clean (parse : String → Option String) :
    ∀ (es : List QEvent) (c : EntryId),
      (∀ e ∈ es, decodeEvent parse (array2obj e.fields) ≠ none) →
      consumeBatch parse c es =
        ((es.map QEvent.eid).getLastD c,
         es.map (fun e =>
           (e.eid, dispatchArgs ((decodeEvent parse (array2obj e.fields)).getD [])
             e.eid)),
         false) := by
  intro es
  induction es with
  | nil => intro c _; simp [consumeBatch]
  | cons e rest ih =>
    intro c hok
    obtain ⟨args, hargs⟩ :=
      Option.ne_none_iff_exists'.mp (hok e (by simp))
    have ih2 := ih e.eid (fun x hx => hok x (by simp [hx]))
    simp only [consumeBatch, hargs, ih2, List.map_cons, List.getLastD_cons,
      Option.getD_some]

theorem getLastD_not_lt :
    ∀ (t : List EntryId) (a : EntryId),
      (∀ b ∈ t, idLtB a b = true) →
      t.Pairwise (fun p q => idLtB p q = true) →
      idLtB (t.getLastD a) a = false := by
  intro t
  induction t with
  | nil => intro a _ _; simpa using idLtB_irrefl a
  | cons b t2 ih =>
    intro a hall hp
    rw [List.getLastD_cons]
    have hab : idLtB a b = true := hall b (by simp)
    have h2 := ih b (List.pairwise_cons.mp hp).1 (List.pairwise_cons.mp hp).2
    rcases hv : idLtB (t2.getLastD b) a with _ | _
    · rfl
    · have h3 := idLtB_trans hv hab
      rw [h2] at h3
      exact Bool.noConfusion h3

theorem mem_not_gt_getLastD :
    ∀ (l : List EntryId) (x i : EntryId),
      l.Pairwise (fun p q => idLtB p q = true) → i ∈ l →
      idLtB (l.getLastD x) i = false := by
  intro l
  induction l with
  | nil => intro x i _ hi; cases hi
  | cons a t ih =>
    intro x i hp hi
    rw [List.getLastD_cons]
    rcases List.mem_cons.mp hi with rfl | hit
    · exact getLastD_not_lt t i (List.pairwise_cons.mp hp).1
        (List.pairwise_cons.mp hp).2
    · exact ih a i (List.pairwise_cons.mp hp).2 hit

theorem mem_newEntries {st : GroupState} {c : Nat} {e : Entry}
    (h : e ∈ newEntries st c) :
    e ∈ st.stream ∧ idLtB st.lastDelivered e.eid = true := by
  have h1 := List.take_subset _ _ h
  have h2 := List.mem_filter.mp h1
  exact ⟨h2.1, by simpa using h2.2⟩

theorem countId_eq_zero_of_not_mem :
    ∀ (l : List EntryId) (i : EntryId), i ∉ l → countId i l = 0 := by
  intro l
  induction l with
  | nil => intro i _; rfl
  | cons j rest ih =>
    intro i hi
    have hji : ¬ (j = i) := fun h => hi (by simp [h])
    simp [countId, hji, ih i (fun h => hi (by simp [h]))]

theorem countId_le_one_of_nodup :
    ∀ (l : List EntryId), l.Nodup → ∀ i, countId i l ≤ 1 := by
  intro l
  induction l with
  | nil => intro _ i; simp [countId]
  | cons j rest ih =>
    intro hn i
    have hj : j ∉ rest := (List.nodup_cons.mp hn).1
    by_cases hji : j = i
    · subst hji
      simp [countId, countId_eq_zero_of_not_mem rest j hj]
    · simp only [countId, if_neg hji, Nat.zero_add]
      exact ih (List.nodup_cons.mp hn).2 i

theorem ackIds_catch (c : Bool) (tr : List CEffect) :
    ackIds (if c then tr ++ [CEffect.errorEmit] else tr) = ackIds tr := by
  cases c <;> simp [ackIds_append, ackIds]

theorem cbIds_catch (c : Bool) (tr : List CEffect) :
    cbIds (if c then tr ++ [CEffect.errorEmit] else tr) = cbIds tr := by
  cases c <;> simp [cbIds_append, cbIds]

/-- Claim C1: the claim states that whenever the pending-phase read returns
pending records they are handled and the new phase is skipped.  The code
contradicts this: its guard demands more than one stream in the reply, which
a single-stream read never produces, so with one record pending (100-0) and
one new (200-0) the iteration invokes the callback on and acknowledges the
new record while the pending record stays pending and untouched. -/
theorem claim_c1_pending_skipped :
    (100, 0) ∈ stateBoth.pel ∧
    (consumeIteration parseId cbOk optsDefault 1000 stateBoth).2 =
      [CEffect.cbCall (200, 0) true, CEffect.ack (200, 0)] ∧
    (100, 0) ∈ (consumeIteration parseId cbOk optsDefault 1000 stateBoth).1.pel := by
  decide

/-- Claim C3: the claim states that a pending record older than
maxRetentionMs is acknowledged immediately without reaching the callback.
The code contradicts this: with a single stale pending record (age far past
the one-second retention) the iteration performs no acknowledgment and no
callback at all, leaving the state unchanged, because the pending branch is
unreachable. -/
theorem claim_c3_stale_untouched :
    consumeIteration parseId cbOk optsRet 1000000000 stateStale =
      (stateStale, []) ∧
    (100, 0) ∈ stateStale.pel ∧
    jsOrNat optsRet.maxRetentionMs 86400000 < 1000000000 - entryA.ts := by
  decide

/-- Claim C8 counterexample: with maxRetentionMs = 0 and one fresh pending
record, the first pass issues no acknowledgment and no callback; the record
is still pending afterwards, refuting the claimed discard-all behaviour. -/
theorem claim_c8_counterexample :
    (500, 0) ∈ stateFresh.pel ∧
    (consumeIteration parseId cbOk optsZero 1000 stateFresh).2 = [] ∧
    (500, 0) ∈ (consumeIteration parseId cbOk optsZero 1000 stateFresh).1.pel := by
  decide

/-- Claim C8 (amended): a Consumer constructed with maxRetentionMs = 0
neither acknowledges nor invokes the callback on any pre-existing pending
record during an iteration: the pending-handling block is unreachable and
the new phase only touches ids past the group cursor. -/
theorem claim_c8_zero_retention (parse : String → Option String)
    (cb : String → Bool) (opts : ConsumerOpts) (now : Nat) (st : GroupState)
    (_hm : opts.maxRetentionMs = some 0)
    (hpel : ∀ i ∈ st.pel, idLtB st.lastDelivered i = false) :
    ∀ i ∈ st.pel,
      i ∉ ackIds (consumeIteration parse cb opts now st).2 ∧
      i ∉ cbIds (consumeIteration parse cb opts now st).2 := by
  intro i hi
  rw [consumeIteration_reduces]
  by_cases hnew : newEntries (trimStream opts now st) (jsOrNat opts.batchSize 1) = []
  · rw [newPhase_empty parse cb opts _ hnew]
    simp [ackIds, cbIds]
  · rw [newPhase_nonempty parse cb opts _ hnew]
    have hnotin : i ∉ (newEntries (trimStream opts now st)
        (jsOrNat opts.batchSize 1)).map Entry.eid := by
      intro hmm
      obtain ⟨e, he, heq⟩ := List.mem_map.mp hmm
      have hlt := (mem_newEntries he).2
      rw [heq, (trimStream_pel opts now st).2] at hlt
      rw [hpel i hi] at hlt
      exact Bool.noConfusion hlt
    constructor
    · rw [ackIds_catch]
      intro hmm
      exact hnotin ((ackIds_processEntries_sublist parse cb _ _).subset hmm)
    · rw [cbIds_catch]
      intro hmm
      exact hnotin ((cbIds_processEntries_sublist parse cb _ _).subset hmm)

/-- Claim C8 amended witness at a concrete input. -/
theorem claim_c8_zero_retention_witness :
    (500, 0) ∉ ackIds (consumeIteration parseId cbOk optsZero 1000 stateFresh).2 :=
  (claim_c8_zero_retention parseId cbOk optsZero 1000 stateFresh (by decide)
    (by decide) (500, 0) (by decide)).1

/-- Claim C4: within one iteration of Consumer.consume, each record id is
acknowledged at most once (when the stream carries no duplicate ids), and
acknowledging an id that is no longer pending leaves the state unchanged
(XACK is idempotent on absent ids). -/
theorem claim_c4_ack_once (parse : String → Option String) (cb : String → Bool)
    (opts : ConsumerOpts) (now : Nat) (st : GroupState)
    (h : (st.stream.map Entry.eid).Nodup) :
    (∀ i, countId i (ackIds (consumeIteration parse cb opts now st).2) ≤ 1) ∧
    (∀ s : GroupState, ∀ i : EntryId, i ∉ s.pel → xack s i = s) := by
  constructor
  · intro i
    have hnodup : (ackIds (consumeIteration parse cb opts now st).2).Nodup := by
      rw [consumeIteration_reduces]
      by_cases hnew : newEntries (trimStream opts now st)
          (jsOrNat opts.batchSize 1) = []
      · rw [newPhase_empty parse cb opts _ hnew]
        simp [ackIds]
      · rw [newPhase_nonempty parse cb opts _ hnew, ackIds_catch]
        have s1 := ackIds_processEntries_sublist parse cb
          (newEntries (trimStream opts now st) (jsOrNat opts.batchSize 1))
          (deliverNew (trimStream opts now st) (jsOrNat opts.batchSize 1))
        have s2 : List.Sublist
            (newEntries (trimStream opts now st) (jsOrNat opts.batchSize 1))
            (trimStream opts now st).stream :=
          List.Sublist.trans (List.take_sublist _ _) (List.filter_sublist _)
        have s3 := trimStream_stream_sublist opts now st
        have s4 := (List.Sublist.trans s2 s3).map Entry.eid
        exact List.Nodup.sublist (List.Sublist.trans s1 s4) h
    exact countId_le_one_of_nodup _ hnodup i
  · intro s i hi
    unfold xack
    rw [List.erase_of_not_mem hi]

/-- Claim C4 witness at a concrete input. -/
theorem claim_c4_ack_once_witness :
    countId (200, 0)
      (ackIds (consumeIteration parseId cbOk optsDefault 1000 stateBoth).2) ≤ 1 :=
  (claim_c4_ack_once parseId cbOk optsDefault 1000 stateBoth (by decide)).1
    (200, 0)

/-- Claim C2: a delivered record stays in the pending set until acknowledged.
In one processMessages pass over a batch, a record whose callback fails is
left in the PEL and is returned by a subsequent pending-phase read, and any
id that leaves the PEL did so through an acknowledgment issued after a
successful callback on the record with that id: no record is silently
dropped. -/
theorem claim_c2_unacked_redeliverable (parse : String → Option String)
    (cb : String → Bool) (name : String) (entries : List Entry)
    (st : GroupState) (e : Entry)
    (hstream : e ∈ st.stream) (hmem : e ∈ entries) (hpel : e.eid ∈ st.pel)
    (hnodup : (entries.map Entry.eid).Nodup)
    (hfail : ∀ d, parsedData parse e = some d → cb d = false) :
    e.eid ∈ (processMessages parse cb st [(name, entries)]).1.pel ∧
    e ∈ pelEntries (processMessages parse cb st [(name, entries)]).1 ∧
    (∀ i, i ∈ st.pel → i ∉ (processMessages parse cb st [(name, entries)]).1.pel →
      ∃ e2, e2 ∈ entries ∧ e2.eid = i ∧
        ∃ d, parsedData parse e2 = some d ∧ cb d = true) := by
  have hpm : processMessages parse cb st [(name, entries)] =
      processEntries parse cb st entries := rfl
  rw [hpm]
  have hmain : e.eid ∈ (processEntries parse cb st entries).1.pel := by
    by_contra hno
    have hack := pel_drop_acked parse cb entries st e.eid hpel hno
    obtain ⟨e2, he2, heq, d, hd, hcbt⟩ :=
      ackIds_processEntries_mem parse cb entries st e.eid hack
    have he2e : e2 = e := List.inj_on_of_nodup_map hnodup he2 hmem heq
    rw [he2e] at hd
    rw [hfail d hd] at hcbt
    exact Bool.noConfusion hcbt
  refine ⟨hmain, ?_, ?_⟩
  · have hs := (processEntries_fixed parse cb entries st).1
    unfold pelEntries
    refine List.mem_filter.mpr ⟨?_, ?_⟩
    · rw [hs]; exact hstream
    · exact (memB_iff e.eid _).mpr hmain
  · intro i hi hno
    exact ackIds_processEntries_mem parse cb entries st i
      (pel_drop_acked parse cb entries st i hi hno)

/-- Claim C2 witness at a concrete input with an always-failing callback. -/
theorem claim_c2_unacked_redeliverable_witness :
    entryF.eid ∈
      (processMessages parseId cbFail stateFresh [(streamKey, [entryF])]).1.pel :=
  (claim_c2_unacked_redeliverable parseId cbFail streamKey [entryF] stateFresh
    entryF (by decide) (by decide) (by decide) (by decide)
    (fun d _ => rfl)).1

/-- Claim C5 counterexample: with maxRetentionMs unset, the cutoff is the
constant 86400000 rather than now minus the 24-hour default, so at
now = 100000000 the record timestamped 50000000 is deleted even though its
timestamp is not below now - 86400000, refuting the claimed bound. -/
theorem claim_c5_counterexample :
    entryOld ∈ stateTrim.stream ∧
    entryOld ∉ (trimStream optsDefault 100000000 stateTrim).stream ∧
    ¬ ((entryOld.ts : Int) < (100000000 : Int) - 86400000) := by
  decide

/-- Claim C5 (amended): trimStream fires at most once per trimIntervalMs
window (a call inside the window returns the state unchanged, a call at or
past the window boundary stamps lastTrim to now), and every deleted record
has id timestamp strictly below cutoffTime, which is now - maxRetentionMs
when that subtraction is nonzero and the constant 86400000 when
maxRetentionMs is unset or the subtraction is zero; no record with timestamp
at or above that cutoff is ever deleted. -/
theorem claim_c5_trim_bounds (opts : ConsumerOpts) (now : Nat)
    (st : GroupState) :
    (st.lastTrim + jsOrNat opts.trimIntervalMs 60000 > now →
      trimStream opts now st = st) ∧
    (st.lastTrim + jsOrNat opts.trimIntervalMs 60000 ≤ now →
      (trimStream opts now st).lastTrim = now) ∧
    (∀ e ∈ st.stream, e ∉ (trimStream opts now st).stream →
      (e.ts : Int) < cutoffTime opts.maxRetentionMs now) := by
  refine ⟨?_, ?_, ?_⟩
  · intro h
    simp [trimStream, h]
  · intro h
    have h2 : ¬ (st.lastTrim + jsOrNat opts.trimIntervalMs 60000 > now) := by
      omega
    unfold trimStream
    rw [if_neg h2]
    split
    · rfl
    · split
      · rfl
      · rfl
  · intro e he hout
    unfold trimStream at hout
    split at hout
    · exact absurd he hout
    · split at hout
      · exact absurd he hout
      · split at hout
        · by_contra hnc
          exact hout (List.mem_filter.mpr ⟨he, by simp [hnc]⟩)
        · exact absurd he hout

/-- Claim C5 amended witness at a concrete input inside the rate window. -/
theorem claim_c5_trim_bounds_witness :
    trimStream optsDefault 1000 stateFresh = stateFresh :=
  (claim_c5_trim_bounds optsDefault 1000 stateFresh).1 (by decide)

/-- Claim C10: a record whose data field fails to JSON-parse aborts the
batch: in the new-record phase, the records before it are processed
normally, the failing record and every later record are neither processed
nor acknowledged, and the escaped error is reported on the error channel at
the loop level (the iteration trace ends with the catch's error emission and
the iteration completes normally). -/
theorem claim_c10_parse_error_aborts (parse : String → Option String)
    (cb : String → Bool) (opts : ConsumerOpts) (now : Nat) (st : GroupState)
    (pre post : List Entry) (bad : Entry)
    (hbatch : newEntries (trimStream opts now st) (jsOrNat opts.batchSize 1) =
      pre ++ bad :: post)
    (hpre : ∀ e ∈ pre, (parsedData parse e).isSome)
    (hbad : parsedData parse bad = none)
    (hnodup : ((pre ++ bad :: post).map Entry.eid).Nodup) :
    (consumeIteration parse cb opts now st).2 =
      (processEntries parse cb
        (deliverNew (trimStream opts now st) (jsOrNat opts.batchSize 1))
        pre).2.1 ++ [CEffect.errorEmit] ∧
    cbIds (consumeIteration parse cb opts now st).2 = pre.map Entry.eid ∧
    bad.eid ∉ cbIds (consumeIteration parse cb opts now st).2 ∧
    (∀ e ∈ post, e.eid ∉ cbIds (consumeIteration parse cb opts now st).2) ∧
    bad.eid ∉ ackIds (consumeIteration parse cb opts now st).2 ∧
    (∀ e ∈ post, e.eid ∉ ackIds (consumeIteration parse cb opts now st).2) := by
  have hne : newEntries (trimStream opts now st) (jsOrNat opts.batchSize 1) ≠ [] := by
    rw [hbatch]
    simp
  have hbrk := processEntries_break parse cb bad post hbad pre
    (deliverNew (trimStream opts now st) (jsOrNat opts.batchSize 1)) hpre
  have htr : (consumeIteration parse cb opts now st).2 =
      (processEntries parse cb
        (deliverNew (trimStream opts now st) (jsOrNat opts.batchSize 1))
        pre).2.1 ++ [CEffect.errorEmit] := by
    rw [consumeIteration_reduces, newPhase_nonempty parse cb opts _ hne, hbatch,
      hbrk]
    rfl
  have hmap : (pre ++ bad :: post).map Entry.eid =
      pre.map Entry.eid ++ bad.eid :: post.map Entry.eid := by
    simp
  rw [hmap] at hnodup
  have hdisj := (List.nodup_append.mp hnodup).2.2
  have hcbeq : cbIds (consumeIteration parse cb opts now st).2 =
      pre.map Entry.eid := by
    rw [htr, cbIds_append]
    have : cbIds [CEffect.errorEmit] = [] := rfl
    rw [this, List.append_nil]
    exact cbIds_processEntries_clean parse cb pre _ hpre
  have hacksub : ∀ i, i ∈ ackIds (consumeIteration parse cb opts now st).2 →
      i ∈ pre.map Entry.eid := by
    intro i hi
    rw [htr, ackIds_append] at hi
    have hnilerr : ackIds [CEffect.errorEmit] = [] := rfl
    rw [hnilerr, List.append_nil] at hi
    exact (ackIds_processEntries_sublist parse cb pre _).subset hi
  refine ⟨htr, hcbeq, ?_, ?_, ?_, ?_⟩
  · rw [hcbeq]
    intro hmm
    exact hdisj hmm (by simp)
  · intro e he
    rw [hcbeq]
    intro hmm
    exact hdisj hmm (by simp; exact Or.inr ⟨e, he, rfl⟩)
  · intro hmm
    exact hdisj (hacksub bad.eid hmm) (by simp)
  · intro e he hmm
    exact hdisj (hacksub e.eid hmm) (by simp; exact Or.inr ⟨e, he, rfl⟩)

/-- Claim C10 witness at a concrete three-record batch whose middle record
fails to parse. -/
theorem claim_c10_parse_error_aborts_witness :
    entryBad.eid ∉
      cbIds (consumeIteration parseNoBad cbOk optsBatch3 1000 stateNewBatch).2 :=
  (claim_c10_parse_error_aborts parseNoBad cbOk optsBatch3 1000 stateNewBatch
    [entryA] [entryB] entryBad (by decide) (by decide) (by decide)
    (by decide)).2.2.1

/-- Claim C6: over a sorted log, one listener pass started from cursor x
processes exactly the records with id past x, in order, tagging each
dispatch with the cursor value already advanced to that record's id; the
cursor trace is strictly increasing, no processed id is at or behind x, no
id past x is skipped, and a further read from the final cursor returns no
already-processed record. -/
theorem claim_c6_cursor_monotone (parse : String → Option String)
    (log : List QEvent) (x : EntryId)
    (hsorted : log.Pairwise (fun a b => idLtB a.eid b.eid = true))
    (hok : ∀ e ∈ log, decodeEvent parse (array2obj e.fields) ≠ none) :
    (listenerPass parse log x).2.1 =
      (xreadAfter log x).map (fun e =>
        (e.eid, dispatchArgs ((decodeEvent parse (array2obj e.fields)).getD [])
          e.eid)) ∧
    ((listenerPass parse log x).2.1.map Prod.fst).Pairwise
      (fun a b => idLtB a b = true) ∧
    (∀ i ∈ (listenerPass parse log x).2.1.map Prod.fst, idLtB x i = true) ∧
    (∀ e ∈ log, idLtB x e.eid = true →
      e.eid ∈ (listenerPass parse log x).2.1.map Prod.fst) ∧
    (∀ e ∈ xreadAfter log (listenerPass parse log x).1,
      e.eid ∉ (listenerPass parse log x).2.1.map Prod.fst) := by
  have hok2 : ∀ e ∈ xreadAfter log x,
      decodeEvent parse (array2obj e.fields) ≠ none :=
    fun e he => hok e (List.mem_of_mem_filter he)
  have hcb := consumeBatch_clean parse (xreadAfter log x) x hok2
  have h1 : (listenerPass parse log x).2.1 =
      (xreadAfter log x).map (fun e =>
        (e.eid, dispatchArgs ((decodeEvent parse (array2obj e.fields)).getD [])
          e.eid)) := by
    unfold listenerPass
    rw [hcb]
  have hfst : (listenerPass parse log x).2.1.map Prod.fst =
      (xreadAfter log x).map QEvent.eid := by
    rw [h1, List.map_map]
    rfl
  have hpw : ((xreadAfter log x).map QEvent.eid).Pairwise
      (fun a b => idLtB a b = true) :=
    List.Pairwise.map QEvent.eid (fun a b hab => hab)
      (List.Pairwise.filter _ hsorted)
  have hcur : (listenerPass parse log x).1 =
      ((xreadAfter log x).map QEvent.eid).getLastD x := by
    unfold listenerPass
    rw [hcb]
  refine ⟨h1, ?_, ?_, ?_, ?_⟩
  · rw [hfst]
    exact hpw
  · rw [hfst]
    intro i hi
    obtain ⟨e, he, heq⟩ := List.mem_map.mp hi
    rw [← heq]
    simpa using (List.mem_filter.mp he).2
  · intro e he hlt
    rw [hfst]
    exact List.mem_map_of_mem QEvent.eid
      (List.mem_filter.mpr ⟨he, by simpa using hlt⟩)
  · intro e he
    rw [hfst]
    intro hmm
    have hgt : idLtB (listenerPass parse log x).1 e.eid = true := by
      simpa using (List.mem_filter.mp he).2
    rw [hcur] at hgt
    rw [mem_not_gt_getLastD ((xreadAfter log x).map QEvent.eid) x e.eid hpw hmm]
      at hgt
    exact Bool.noConfusion hgt

/-- Claim C6 witness at a concrete two-record log. -/
theorem claim_c6_cursor_monotone_witness :
    (listenerPass parseId logTwo (0, 0)).2.1 =
      (xreadAfter logTwo (0, 0)).map (fun e =>
        (e.eid, dispatchArgs ((decodeEvent parseId (array2obj e.fields)).getD [])
          e.eid)) :=
  (claim_c6_cursor_monotone parseId logTwo (0, 0) (by decide) (by decide)).1

/-- Claim C7: a drained record is emitted with only its id and no payload;
any other kind is emitted as (payload, id) under the bare kind, and exactly
when the remaining payload carries a truthy job identifier the identical
(payload, id) is additionally emitted under the composed kind:jobId topic. -/
theorem claim_c7_dispatch_shape (parse : String → Option String) (c : EntryId)
    (e : QEvent) (args : List (String × FVal))
    (hok : decodeEvent parse (array2obj e.fields) = some args) :
    consumeBatch parse c [e] =
      (e.eid, [(e.eid, dispatchArgs args e.eid)], false) ∧
    (lookupObj "event" args = some (FVal.str "drained") →
      dispatchArgs args e.eid = [Emission.idOnly e.eid]) ∧
    (lookupObj "event" args ≠ some (FVal.str "drained") →
      (truthyJobId (eraseKey "event" args) = none →
        dispatchArgs args e.eid =
          [Emission.keyed (lookupObj "event" args) (eraseKey "event" args)
            e.eid]) ∧
      (∀ j, truthyJobId (eraseKey "event" args) = some j →
        dispatchArgs args e.eid =
          [Emission.keyed (lookupObj "event" args) (eraseKey "event" args)
            e.eid,
           Emission.composedKeyed (lookupObj "event" args) j
            (eraseKey "event" args) e.eid])) := by
  refine ⟨by simp [consumeBatch, hok], ?_, ?_⟩
  · intro hk
    simp [dispatchArgs, hk]
  · intro hk
    constructor
    · intro hj
      simp [dispatchArgs, hk, hj]
    · intro j hj
      simp [dispatchArgs, hk, hj]

/-- Claim C7 witness: the concrete completed record with a job id yields the
bare and the composed emission with identical payload. -/
theorem claim_c7_dispatch_shape_witness :
    dispatchArgs argsCompleted evCompleted.eid =
      [Emission.keyed (lookupObj "event" argsCompleted)
        (eraseKey "event" argsCompleted) evCompleted.eid,
       Emission.composedKeyed (lookupObj "event" argsCompleted) "j1"
        (eraseKey "event" argsCompleted) evCompleted.eid] :=
  ((claim_c7_dispatch_shape parseId (0, 0) evCompleted argsCompleted
    (by decide)).2.2 (by decide)).2 "j1" (by decide)

/-- Claim C9: calling run while the instance is already running fails with
the already-running error and returns the control state unchanged, leaving
the running loop undisturbed. -/
theorem claim_c9_double_start (b : Bool) (st : QEvCtl)
    (h : st.running = true) :
    qeRun b st = (st, some "Queue Events is already running.") := by
  simp [qeRun, h]

/-- Claim C9 witness at a concrete running state. -/
theorem claim_c9_double_start_witness :
    qeRun false ctlRunning = (ctlRunning, some "Queue Events is already running.") :=
  claim_c9_double_start false ctlRunning (by decide)

end BullS
